import Mathlib

/-!
Shallow embedding of the `edit` command pipeline of `leetcode-cli`
(`src/cmds/edit.rs`, `EditCommand::handler`), together with proofs of the
behavioural properties stated in the specification.

External collaborators (argument parsing, the cache database, the serde
deserializer, path derivation, the editor process) are modelled as oracle
fields of an `Env` record; the handler itself is translated line by line as a
state-passing function over an explicit filesystem map plus an effect trace.
-/

namespace LeetcodeEdit

/-- Error taxonomy of the pipeline (section 7 of the design): each constructor
tags one fallible step of `EditCommand::handler`. `removeErr` models the
`std::fs::remove_file` failure when the path does not exist. -/
inductive Err where
  | noneError : Err
  | cacheErr : Err
  | dailyErr : Err
  | problemNotFound : Err
  | syncErr : Err
  | pathErr : Err
  | questionFetchErr : Err
  | testPathErr : Err
  | removeErr : String → Err
  | unsupportedLanguage : String → Err
  | invalidEnvVar : String → Err
  | spawnErr : Err
  | updateErr : Err
  deriving DecidableEq, Repr

/-- One language definition of a Question: a (language tag, template code)
pair. Mirrors the elements of `question.defs.0` with fields `value` and
`code` as used at edit.rs lines 116-137. -/
structure CodeDef where
  value : String
  code : String
  deriving DecidableEq, Repr

/-- Question: the fields of the cached/remote question entity that the edit
handler reads (`defs` at line 116, `all_cases` at line 155). -/
structure Question where
  defs : List CodeDef
  all_cases : String
  deriving DecidableEq, Repr

/-- Problem: the cached row fields that the edit handler reads (`desc` at
line 103, `id` at line 226); the remaining columns of the `problems` table
in cache/schemas.rs are never touched by this handler. -/
structure Problem where
  id : Int
  desc : String
  deriving DecidableEq, Repr

/-- The `conf.code` configuration section, restricted to the fields read by
the edit handler (edit.rs lines 87-220). -/
structure CodeConf where
  test : Bool
  lang : String
  comment_problem_desc : Bool
  inject_before : Option (List String)
  inject_after : Option (List String)
  edit_code_marker : Bool
  comment_leading : String
  start_marker : String
  end_marker : String
  editor : String
  editor_args : Option (List String)
  editor_envs : Option (List String)
  deriving DecidableEq, Repr

/-- The filesystem is a finite map from paths to file contents, represented
as an association list. -/
abbrev FS := List (String × String)

/-- Content of the file at path `p`, if it exists. -/
def lookupFile : FS → String → Option String
  | [], _ => none
  | e :: rest, p => if e.1 = p then some e.2 else lookupFile rest p

/-- Remove every entry for path `p` (used by `std::fs::remove_file`). -/
def removeFile : FS → String → FS
  | [], _ => []
  | e :: rest, p => if e.1 = p then removeFile rest p else e :: removeFile rest p

/-- Create or truncate the file at `p` with content `c` (`File::create`
followed by writes). -/
def setFile (fs : FS) (p c : String) : FS :=
  (p, c) :: removeFile fs p

/-- Append `s` to the file at `p` (sequential `write_all` calls on an open
handle). -/
def appendFile (fs : FS) (p s : String) : FS :=
  setFile fs p (((lookupFile fs p).getD "") ++ s)

/-- `std::fs::remove_file`: fails with a filesystem error when the path does
not exist, otherwise removes it. -/
def removeFileE (fs : FS) (p : String) : Except Err FS :=
  if (lookupFile fs p).isSome then .ok (removeFile fs p) else .error (.removeErr p)

/-- Concatenation of a list of strings, in order. -/
def concatAll : List String → String
  | [] => ""
  | s :: rest => s ++ concatAll rest

/-- The byte layout written for one matching language definition
(edit.rs lines 119-151): optional description comments, `inject_before`
lines, optional start marker line, the template code plus newline, optional
end marker line, `inject_after` lines. `pdc` is the problem description
comment block (line 89) and `qdesc` is the question description comment
block already carrying its trailing newline (line 111). -/
def scaffoldBlock (conf : CodeConf) (pdc qdesc code : String) : String :=
  (if conf.comment_problem_desc then pdc ++ qdesc else "")
    ++ concatAll ((conf.inject_before.getD []).map (fun l => l ++ "\n"))
    ++ (if conf.edit_code_marker then
          conf.comment_leading ++ " " ++ conf.start_marker ++ "\n" else "")
    ++ (code ++ "\n")
    ++ (if conf.edit_code_marker then
          conf.comment_leading ++ " " ++ conf.end_marker ++ "\n" else "")
    ++ concatAll ((conf.inject_after.getD []).map (fun l => l ++ "\n"))

/-- The `for d in question.defs.0` loop (edit.rs lines 115-158): for each
definition whose tag equals the requested language, append the scaffold
block to the code file, and, when the test flag is set, re-create the test
file with `all_cases`; accumulate the test-write count and the `flag`
variable. Returns (filesystem, test writes, flag). -/
def writeDefs (conf : CodeConf) (testFlag : Bool)
    (lang path testPath qdesc pdc allCases : String) :
    List CodeDef → FS → Nat → Bool → FS × Nat × Bool
  | [], fs, tw, flag => (fs, tw, flag)
  | d :: rest, fs, tw, flag =>
    if d.value = lang then
      let fs1 := appendFile fs path (scaffoldBlock conf pdc qdesc d.code)
      let fs2 := if testFlag then setFile fs1 testPath allCases else fs1
      let tw2 := if testFlag then tw + 1 else tw
      writeDefs conf testFlag lang path testPath qdesc pdc allCases rest fs2 tw2 true
    else
      writeDefs conf testFlag lang path testPath qdesc pdc allCases rest fs tw flag

/-- Effect trace of one invocation: the filesystem plus markers recording
which external calls were made and with which arguments. -/
structure St where
  fs : FS
  dailyFetched : Bool
  getProblemArg : Option Int
  descParsed : Bool
  remoteFetched : Bool
  getQuestionArg : Option Int
  questionUsed : Option Question
  syncedLang : Option String
  pathProblemId : Option Int
  pathLang : Option String
  testWrites : Nat
  spawnAttempted : Bool
  statusUpdates : Nat
  statusCallArg : Option (Int × Bool)
  deriving DecidableEq, Repr

/-- Initial trace: the ambient filesystem, no effects yet. -/
def St.init (fs0 : FS) : St :=
  { fs := fs0, dailyFetched := false, getProblemArg := none, descParsed := false,
    remoteFetched := false, getQuestionArg := none, questionUsed := none,
    syncedLang := none, pathProblemId := none, pathLang := none, testWrites := 0,
    spawnAttempted := false, statusUpdates := 0, statusCallArg := none }

/-- Environment of one invocation: parsed CLI arguments, configuration,
ambient filesystem, and the outcomes of every external collaborator
(cache construction, daily lookup, problem row lookup, serde
deserialization of `Problem.desc`, remote question fetch, path derivation,
description comment rendering, config persistence, editor spawn, file
status update). -/
structure Env where
  daily : Bool
  argId : Option Int
  argLang : Option String
  conf : CodeConf
  fs : FS
  cacheNew : Except Err Unit
  dailyId : Except Err Int
  getProblem : Int → Except Err Problem
  parseQuestion : String → Option Question
  getQuestion : Int → Except Err Question
  codePath : Problem → String → Except Err String
  testCasesPath : Problem → Except Err String
  pDescComment : Problem → CodeConf → String
  qDescComment : Question → CodeConf → String
  syncOk : Except Err Unit
  spawn : Except Err Int
  updateStatus : Int → Bool → Except Err Unit

/-- Splitting on the `=` character, over the character list (the Rust
`str::split` with the char delimiter: an empty string yields one empty
part, n delimiters yield n+1 parts). -/
def splitEqAux : List Char → List (List Char)
  | [] => [[]]
  | c :: rest =>
    let r := splitEqAux rest
    if c = '=' then [] :: r
    else
      match r with
      | [] => [[c]]
      | g :: gs => (c :: g) :: gs

/-- The Rust `env.split('=').collect::<Vec<_>>()` of edit.rs line 208. -/
def splitEq (s : String) : List String :=
  (splitEqAux s.data).map (fun l => String.mk l)

/-- Whitespace test backing the Rust `str::trim`. -/
def isSpaceChar (c : Char) : Bool :=
  c = ' ' || c = '\t' || c = '\n' || c = '\r'

/-- The Rust `str::trim`: strip leading and trailing whitespace. -/
def trimStr (s : String) : String :=
  String.mk (((s.data.dropWhile isSpaceChar).reverse.dropWhile isSpaceChar).reverse)

/-- The editor environment loop (edit.rs lines 205-217): split each entry on
the `=` character; exactly two parts gives a (trimmed name, trimmed value)
binding, anything else aborts with the invalid-entry error naming the
entry. -/
def buildEnvs : List String → Except Err (List (String × String))
  | [] => .ok []
  | e :: rest =>
    match splitEq e with
    | [k, v] =>
      match buildEnvs rest with
      | .ok m => .ok ((trimStr k, trimStr v) :: m)
      | .error err => .error err
    | _ => .error (.invalidEnvVar e)

/-- Generation of the code (and optional test) file once a Question is in
hand (edit.rs lines 110-171): create the code file, derive the question
description comment and the test path, run the definitions loop, and on no
match remove the code file, remove the test file when the test flag is set,
and fail with the unsupported-language error. -/
def generateFiles (env : Env) (conf : CodeConf) (testFlag : Bool) (problem : Problem)
    (pdc path : String) (question : Question) (st : St) :
    Except Err (CodeConf × Problem × String) × St :=
  let st1 := { st with questionUsed := some question, fs := setFile st.fs path "" }
  let qdesc := env.qDescComment question conf ++ "\n"
  match env.testCasesPath problem with
  | .error e => (.error e, st1)
  | .ok testPath =>
    match writeDefs conf testFlag conf.lang path testPath qdesc pdc
        question.all_cases question.defs st1.fs 0 false with
    | (fs2, tw, flag) =>
      let st2 := { st1 with fs := fs2, testWrites := tw }
      if flag then (.ok (conf, problem, path), st2)
      else
        match removeFileE st2.fs path with
        | .error e => (.error e, st2)
        | .ok fs3 =>
          let st3 := { st2 with fs := fs3 }
          if testFlag then
            match removeFileE st3.fs testPath with
            | .error e => (.error e, st3)
            | .ok fs4 => (.error (.unsupportedLanguage conf.lang), { st3 with fs := fs4 })
          else
            (.error (.unsupportedLanguage conf.lang), st3)

/-- Path resolution, the existing-file short circuit, and question
resolution (edit.rs lines 100-108): derive the code path; when it already
exists return it unchanged; otherwise deserialize `Problem.desc` as a
Question and fall back to the remote fetch on deserialization failure,
then generate the files. -/
def resolveAndGen (env : Env) (conf : CodeConf) (testFlag : Bool) (problem : Problem)
    (pdc : String) (id : Int) (st : St) : Except Err (CodeConf × Problem × String) × St :=
  match env.codePath problem conf.lang with
  | .error e => (.error e, st)
  | .ok path =>
    let st1 := { st with pathProblemId := some problem.id, pathLang := some conf.lang }
    if (lookupFile st1.fs path).isSome then
      (.ok (conf, problem, path), st1)
    else
      let st2 := { st1 with descParsed := true }
      match env.parseQuestion problem.desc with
      | some q => generateFiles env conf testFlag problem pdc path q st2
      | none =>
        let st3 := { st2 with remoteFetched := true, getQuestionArg := some id }
        match env.getQuestion id with
        | .error e => (.error e, st3)
        | .ok q => generateFiles env conf testFlag problem pdc path q st3

/-- Daily-id resolution step (edit.rs lines 71-76): perform the remote
daily lookup exactly when the daily flag is set. -/
def dailyRes (env : Env) : Except Err (Option Int) :=
  if env.daily then env.dailyId.map some else .ok none

/-- The language override (edit.rs lines 91-97): when a lang argument was
given, overwrite the configured language with it. -/
def langOverride (env : Env) : CodeConf :=
  match env.argLang with
  | some l => { env.conf with lang := l }
  | none => env.conf

/-- The config persistence step (edit.rs line 96): `conf.sync()` is invoked
exactly when a lang argument was given. -/
def syncStep (env : Env) : Except Err Unit :=
  match env.argLang with
  | some _ => env.syncOk
  | none => .ok ()

/-- Scaffold phase of the handler (edit.rs lines 69-171): cache
construction, daily id resolution, id selection, problem lookup, the
test-flag and problem-description-comment snapshots taken before the
language override, the language override with config persistence, then
`resolveAndGen`. On success it returns the effective configuration, the
problem and the code path for the editor phase. -/
def scaffoldPhase (env : Env) : Except Err (CodeConf × Problem × String) × St :=
  let st0 := St.init env.fs
  match env.cacheNew with
  | .error e => (.error e, st0)
  | .ok _ =>
    let st1 := { st0 with dailyFetched := env.daily }
    match dailyRes env with
    | .error e => (.error e, st1)
    | .ok dOpt =>
      match env.argId.or dOpt with
      | none => (.error .noneError, st1)
      | some id =>
        let st2 := { st1 with getProblemArg := some id }
        match env.getProblem id with
        | .error e => (.error e, st2)
        | .ok problem =>
          let testFlag := env.conf.test
          let pdc := env.pDescComment problem env.conf
          match syncStep env with
          | .error e => (.error e, st2)
          | .ok _ =>
            let st3 := { st2 with syncedLang := env.argLang }
            resolveAndGen env (langOverride env) testFlag problem pdc id st3

/-- Editor phase (edit.rs lines 187-228): collect editor arguments, validate
and collect the editor environment entries, append the code path as the
final argument, spawn the editor and wait, then (whatever the exit code)
mark the problem file status true in the cache. -/
def editorPhase (env : Env) (conf : CodeConf) (problem : Problem) (path : String)
    (st : St) : Except Err Unit × St :=
  let args0 := conf.editor_args.getD []
  match buildEnvs (conf.editor_envs.getD []) with
  | .error e => (.error e, st)
  | .ok _envMap =>
    let _args := args0 ++ [path]
    let st1 := { st with spawnAttempted := true }
    match env.spawn with
    | .error e => (.error e, st1)
    | .ok _exitCode =>
      let st2 := { st1 with statusUpdates := st1.statusUpdates + 1,
                            statusCallArg := some (problem.id, true) }
      match env.updateStatus problem.id true with
      | .error e => (.error e, st2)
      | .ok _ => (.ok (), st2)

/-- Whole handler (`EditCommand::handler`): the scaffold phase followed, on
success, by the editor phase. -/
def handler (env : Env) : Except Err Unit × St :=
  match scaffoldPhase env with
  | (.error e, st) => (.error e, st)
  | (.ok (conf, problem, path), st) => editorPhase env conf problem path st

/-- Boolean success test on an editor spawn outcome. -/
def spawnOk (r : Except Err Int) : Bool :=
  match r with
  | .ok _ => true
  | .error _ => false

/-- A sample Question with a single python3 definition. -/
def qPy : Question :=
  { defs := [{ value := "python3", code := "def f(): pass" }], all_cases := "cases" }

/-- A sample Question whose definition list holds the python3 tag twice. -/
def qPyTwice : Question :=
  { defs := [{ value := "python3", code := "def f(): pass" },
             { value := "python3", code := "def g(): pass" }],
    all_cases := "cases" }

/-- A sample configuration: python3, description comments and markers on,
no injected lines, no test file, no editor args or envs. -/
def confBase : CodeConf :=
  { test := false, lang := "python3", comment_problem_desc := true,
    inject_before := none, inject_after := none, edit_code_marker := true,
    comment_leading := "#", start_marker := "@lc code=start",
    end_marker := "@lc code=end", editor := "vim",
    editor_args := none, editor_envs := none }

/-- A sample environment: explicit id 1, no lang override, empty disk, the
cached description parses as `qPy`, every external call succeeds. -/
def envBase : Env :=
  { daily := false, argId := some 1, argLang := none, conf := confBase, fs := [],
    cacheNew := .ok (), dailyId := .error .dailyErr,
    getProblem := fun i =>
      if i = 1 then .ok { id := 1, desc := "descr" } else .error .problemNotFound,
    parseQuestion := fun _ => some qPy,
    getQuestion := fun _ => .error .questionFetchErr,
    codePath := fun _ l => .ok ("code." ++ l),
    testCasesPath := fun _ => .ok "tests.txt",
    pDescComment := fun _ _ => "# problem\n",
    qDescComment := fun _ _ => "# question",
    syncOk := .ok (), spawn := .ok 0,
    updateStatus := fun _ _ => .ok () }

/-! Basic lemmas about the filesystem map. -/

theorem lookupFile_removeFile_same (fs : FS) (p : String) :
    lookupFile (removeFile fs p) p = none := by
  induction fs with
  | nil => rfl
  | cons e rest ih =>
    by_cases h : e.1 = p <;> simp [removeFile, lookupFile, h, ih]

theorem lookupFile_removeFile_other (fs : FS) {p q : String} (h : ¬q = p) :
    lookupFile (removeFile fs p) q = lookupFile fs q := by
  induction fs with
  | nil => rfl
  | cons e rest ih =>
    have hpq : ¬p = q := fun hx => h hx.symm
    by_cases he : e.1 = p
    · simp [removeFile, lookupFile, he, hpq, ih]
    · by_cases heq : e.1 = q <;> simp [removeFile, lookupFile, he, heq, h, ih]

theorem lookupFile_setFile_same (fs : FS) (p c : String) :
    lookupFile (setFile fs p c) p = some c := by
  simp [setFile, lookupFile]

theorem lookupFile_setFile_other (fs : FS) {p q : String} (c : String) (h : ¬q = p) :
    lookupFile (setFile fs p c) q = lookupFile fs q := by
  have hp : ¬p = q := fun hx => h hx.symm
  simp [setFile, lookupFile, hp, lookupFile_removeFile_other fs h]

theorem lookupFile_appendFile_same (fs : FS) (p s cur : String)
    (h : lookupFile fs p = some cur) :
    lookupFile (appendFile fs p s) p = some (cur ++ s) := by
  simp [appendFile, h, lookupFile_setFile_same]

theorem lookupFile_appendFile_other (fs : FS) {p q : String} (s : String) (h : ¬q = p) :
    lookupFile (appendFile fs p s) q = lookupFile fs q := by
  simp [appendFile, lookupFile_setFile_other fs _ h]

/-! Lemmas about the language-definitions loop. -/

theorem writeDefs_nomatch (conf : CodeConf) (tf : Bool)
    (lang path tp qdesc pdc ac : String) :
    ∀ (defs : List CodeDef) (fs : FS) (tw : Nat) (flag : Bool),
      (∀ d ∈ defs, ¬d.value = lang) →
      writeDefs conf tf lang path tp qdesc pdc ac defs fs tw flag = (fs, tw, flag) := by
  intro defs
  induction defs with
  | nil => intro fs tw flag _; rfl
  | cons d rest ih =>
    intro fs tw flag hno
    have hd : ¬d.value = lang := hno d (List.mem_cons_self d rest)
    simp only [writeDefs, hd, if_false, ite_false]
    exact ih fs tw flag (fun x hx => hno x (List.mem_cons_of_mem d hx))

theorem writeDefs_code (conf : CodeConf) (tf : Bool)
    (lang path tp qdesc pdc ac : String) (hne : ¬path = tp) :
    ∀ (defs : List CodeDef) (fs : FS) (tw : Nat) (flag : Bool) (cur : String),
      lookupFile fs path = some cur →
      lookupFile (writeDefs conf tf lang path tp qdesc pdc ac defs fs tw flag).1 path
        = some (cur ++ concatAll ((defs.filter (fun d => decide (d.value = lang))).map
            (fun d => scaffoldBlock conf pdc qdesc d.code))) := by
  intro defs
  induction defs with
  | nil => intro fs tw flag cur hcur; simpa [writeDefs, concatAll] using hcur
  | cons d rest ih =>
    intro fs tw flag cur hcur
    by_cases hd : d.value = lang
    · have h1 : lookupFile (appendFile fs path (scaffoldBlock conf pdc qdesc d.code)) path
          = some (cur ++ scaffoldBlock conf pdc qdesc d.code) :=
        lookupFile_appendFile_same fs path _ cur hcur
      have h2 : lookupFile
          ((if tf then
              setFile (appendFile fs path (scaffoldBlock conf pdc qdesc d.code)) tp ac
            else appendFile fs path (scaffoldBlock conf pdc qdesc d.code))) path
          = some (cur ++ scaffoldBlock conf pdc qdesc d.code) := by
        by_cases htf : tf
        · simpa [htf, lookupFile_setFile_other _ _ hne] using h1
        · simpa [htf] using h1
      simp only [writeDefs, hd, if_true, ite_true]
      rw [ih _ _ true _ h2]
      simp [hd, concatAll, String.append_assoc]
    · simp only [writeDefs, hd, if_false, ite_false]
      rw [ih fs tw flag cur hcur]
      simp [hd]

theorem writeDefs_tw (conf : CodeConf) (tf : Bool)
    (lang path tp qdesc pdc ac : String) :
    ∀ (defs : List CodeDef) (fs : FS) (tw : Nat) (flag : Bool),
      (writeDefs conf tf lang path tp qdesc pdc ac defs fs tw flag).2.1
        = tw + (if tf then (defs.filter (fun d => decide (d.value = lang))).length
                else 0) := by
  intro defs
  induction defs with
  | nil => intro fs tw flag; by_cases htf : tf <;> simp [writeDefs, htf]
  | cons d rest ih =>
    intro fs tw flag
    by_cases hd : d.value = lang
    · simp only [writeDefs, hd, if_true, ite_true]
      rw [ih]
      by_cases htf : tf <;> (simp [htf, hd]; try omega)
    · simp only [writeDefs, hd, if_false, ite_false]
      rw [ih]
      simp [hd]

theorem writeDefs_flag (conf : CodeConf) (tf : Bool)
    (lang path tp qdesc pdc ac : String) :
    ∀ (defs : List CodeDef) (fs : FS) (tw : Nat) (flag : Bool),
      (writeDefs conf tf lang path tp qdesc pdc ac defs fs tw flag).2.2
        = (flag || defs.any (fun d => decide (d.value = lang))) := by
  intro defs
  induction defs with
  | nil => intro fs tw flag; simp [writeDefs]
  | cons d rest ih =>
    intro fs tw flag
    by_cases hd : d.value = lang
    · simp only [writeDefs, hd, if_true, ite_true]
      rw [ih]
      simp [hd]
    · simp only [writeDefs, hd, if_false, ite_false]
      rw [ih]
      simp [hd]

theorem writeDefs_testfile (conf : CodeConf) (tf : Bool)
    (lang path tp qdesc pdc ac : String) (hne : ¬path = tp) :
    ∀ (defs : List CodeDef) (fs : FS) (tw : Nat) (flag : Bool),
      lookupFile (writeDefs conf tf lang path tp qdesc pdc ac defs fs tw flag).1 tp
        = if tf && defs.any (fun d => decide (d.value = lang)) then some ac
          else lookupFile fs tp := by
  intro defs
  induction defs with
  | nil => intro fs tw flag; simp [writeDefs]
  | cons d rest ih =>
    intro fs tw flag
    have htp : ¬tp = path := fun hx => hne hx.symm
    by_cases hd : d.value = lang
    · simp only [writeDefs, hd, if_true, ite_true]
      rw [ih]
      by_cases htf : tf
      · by_cases ha : rest.any (fun d => decide (d.value = lang)) <;>
          simp [htf, hd, ha, lookupFile_setFile_same]
      · simp [htf, lookupFile_appendFile_other fs _ htp]
    · simp only [writeDefs, hd, if_false, ite_false]
      rw [ih]
      simp [hd]

/-! Phase invariants: the scaffold phase never touches the editor-phase
effect fields, and the editor phase never touches the filesystem. -/

theorem generateFiles_editor_fields (env : Env) (conf : CodeConf) (tf : Bool)
    (problem : Problem) (pdc path : String) (q : Question) (st : St) :
    ((generateFiles env conf tf problem pdc path q st).2.spawnAttempted
        = st.spawnAttempted) ∧
    ((generateFiles env conf tf problem pdc path q st).2.statusUpdates
        = st.statusUpdates) ∧
    ((generateFiles env conf tf problem pdc path q st).2.statusCallArg
        = st.statusCallArg) ∧
    ((generateFiles env conf tf problem pdc path q st).2.syncedLang
        = st.syncedLang) := by
  unfold generateFiles
  cases htp : env.testCasesPath problem with
  | error e => simp
  | ok tp =>
    simp only []
    generalize writeDefs conf tf conf.lang path tp (env.qDescComment q conf ++ "\n") pdc
        q.all_cases q.defs (setFile st.fs path "") 0 false = w
    obtain ⟨fs2, tw, flag⟩ := w
    cases flag with
    | true => simp
    | false =>
      simp only [Bool.false_eq_true, if_false]
      cases removeFileE fs2 path with
      | error e => simp
      | ok fs3 =>
        cases tf with
        | false => simp
        | true =>
          simp only [if_true]
          cases removeFileE fs3 tp with
          | error e => simp
          | ok fs4 => simp

theorem resolveAndGen_editor_fields (env : Env) (conf : CodeConf) (tf : Bool)
    (problem : Problem) (pdc : String) (id : Int) (st : St) :
    ((resolveAndGen env conf tf problem pdc id st).2.spawnAttempted
        = st.spawnAttempted) ∧
    ((resolveAndGen env conf tf problem pdc id st).2.statusUpdates
        = st.statusUpdates) ∧
    ((resolveAndGen env conf tf problem pdc id st).2.statusCallArg
        = st.statusCallArg) ∧
    ((resolveAndGen env conf tf problem pdc id st).2.syncedLang
        = st.syncedLang) := by
  unfold resolveAndGen
  cases hcp : env.codePath problem conf.lang with
  | error e => simp
  | ok path =>
    simp only []
    by_cases hex : (lookupFile st.fs path).isSome = true
    · simp [hex]
    · simp only [hex, if_false]
      cases hpq : env.parseQuestion problem.desc with
      | some q =>
        simpa using generateFiles_editor_fields env conf tf problem pdc path q _
      | none =>
        cases hgq : env.getQuestion id with
        | error e => simp
        | ok q =>
          simpa using generateFiles_editor_fields env conf tf problem pdc path q _

theorem generateFiles_spawnA (env : Env) (conf : CodeConf) (tf : Bool)
    (problem : Problem) (pdc path : String) (q : Question) (st : St) :
    (generateFiles env conf tf problem pdc path q st).2.spawnAttempted
      = st.spawnAttempted :=
  (generateFiles_editor_fields env conf tf problem pdc path q st).1

theorem generateFiles_updates (env : Env) (conf : CodeConf) (tf : Bool)
    (problem : Problem) (pdc path : String) (q : Question) (st : St) :
    (generateFiles env conf tf problem pdc path q st).2.statusUpdates
      = st.statusUpdates :=
  (generateFiles_editor_fields env conf tf problem pdc path q st).2.1

theorem generateFiles_callArg (env : Env) (conf : CodeConf) (tf : Bool)
    (problem : Problem) (pdc path : String) (q : Question) (st : St) :
    (generateFiles env conf tf problem pdc path q st).2.statusCallArg
      = st.statusCallArg :=
  (generateFiles_editor_fields env conf tf problem pdc path q st).2.2.1

theorem generateFiles_synced (env : Env) (conf : CodeConf) (tf : Bool)
    (problem : Problem) (pdc path : String) (q : Question) (st : St) :
    (generateFiles env conf tf problem pdc path q st).2.syncedLang
      = st.syncedLang :=
  (generateFiles_editor_fields env conf tf problem pdc path q st).2.2.2

theorem resolveAndGen_spawnA (env : Env) (conf : CodeConf) (tf : Bool)
    (problem : Problem) (pdc : String) (id : Int) (st : St) :
    (resolveAndGen env conf tf problem pdc id st).2.spawnAttempted
      = st.spawnAttempted :=
  (resolveAndGen_editor_fields env conf tf problem pdc id st).1

theorem resolveAndGen_updates (env : Env) (conf : CodeConf) (tf : Bool)
    (problem : Problem) (pdc : String) (id : Int) (st : St) :
    (resolveAndGen env conf tf problem pdc id st).2.statusUpdates
      = st.statusUpdates :=
  (resolveAndGen_editor_fields env conf tf problem pdc id st).2.1

theorem resolveAndGen_callArg (env : Env) (conf : CodeConf) (tf : Bool)
    (problem : Problem) (pdc : String) (id : Int) (st : St) :
    (resolveAndGen env conf tf problem pdc id st).2.statusCallArg
      = st.statusCallArg :=
  (resolveAndGen_editor_fields env conf tf problem pdc id st).2.2.1

theorem resolveAndGen_synced (env : Env) (conf : CodeConf) (tf : Bool)
    (problem : Problem) (pdc : String) (id : Int) (st : St) :
    (resolveAndGen env conf tf problem pdc id st).2.syncedLang
      = st.syncedLang :=
  (resolveAndGen_editor_fields env conf tf problem pdc id st).2.2.2

theorem scaffold_editor_fields (env : Env) :
    ((scaffoldPhase env).2.spawnAttempted = false) ∧
    ((scaffoldPhase env).2.statusUpdates = 0) ∧
    ((scaffoldPhase env).2.statusCallArg = none) := by
  unfold scaffoldPhase
  cases hcn : env.cacheNew with
  | error e => simp [hcn, St.init]
  | ok u =>
    simp only [hcn]
    cases hdr : dailyRes env with
    | error e => simp [hdr, St.init]
    | ok dOpt =>
      simp only [hdr]
      cases hor : env.argId.or dOpt with
      | none => simp [hor, St.init]
      | some id =>
        simp only [hor]
        cases hgp : env.getProblem id with
        | error e => simp [hgp, St.init]
        | ok problem =>
          simp only [hgp]
          cases hsy : syncStep env with
          | error e => simp [hsy, St.init]
          | ok u2 =>
            simp [hsy, St.init, resolveAndGen_spawnA, resolveAndGen_updates,
              resolveAndGen_callArg]

/-- C6: the file status update is invoked, with value true, exactly once
exactly when the editor launch was reached and the spawn succeeded
(whatever the exit code), and never on any earlier fatal error. -/
theorem c6_status_update_gating (env : Env) :
    ((handler env).2.statusUpdates
      = if (handler env).2.spawnAttempted && spawnOk env.spawn then 1 else 0) ∧
    ((handler env).2.statusCallArg.map (fun x => x.2)
      = if (handler env).2.spawnAttempted && spawnOk env.spawn then some true
        else none) := by
  unfold handler
  cases hsp : scaffoldPhase env with
  | mk r st =>
    have h1 : st.spawnAttempted = false := by
      have h := (scaffold_editor_fields env).1
      rw [hsp] at h
      exact h
    have h2 : st.statusUpdates = 0 := by
      have h := (scaffold_editor_fields env).2.1
      rw [hsp] at h
      exact h
    have h3 : st.statusCallArg = none := by
      have h := (scaffold_editor_fields env).2.2
      rw [hsp] at h
      exact h
    cases r with
    | error e => simp [h1, h2, h3]
    | ok v =>
      obtain ⟨conf, problem, path⟩ := v
      unfold editorPhase
      cases hbe : buildEnvs (conf.editor_envs.getD []) with
      | error e => simp [hbe, h1, h2, h3]
      | ok m =>
        simp only [hbe]
        cases hspw : env.spawn with
        | error e => simp [hspw, h1, h2, h3, spawnOk]
        | ok c =>
          simp only [hspw]
          cases hup : env.updateStatus problem.id true with
          | error e => simp [hup, h2, h3, spawnOk, hspw]
          | ok u => simp [hup, h2, h3, spawnOk, hspw]

/-- C8: when the scaffold phase succeeded and the invocation then fails in
the editor phase with a malformed environment entry or a spawn failure, the
filesystem is exactly the one the scaffold phase left behind: no file is
removed or rewritten on those error paths. -/
theorem c8_no_rollback_on_launch_failure (env : Env) (conf : CodeConf)
    (problem : Problem) (path : String) (st : St) (e : Err)
    (hs : scaffoldPhase env = (.ok (conf, problem, path), st))
    (hr : (handler env).1 = .error e)
    (he : (∃ x, e = .invalidEnvVar x) ∨ e = .spawnErr) :
    (handler env).2.fs = st.fs := by
  unfold handler
  rw [hs]
  unfold editorPhase
  cases hbe : buildEnvs (conf.editor_envs.getD []) with
  | error e2 => simp [hbe]
  | ok m =>
    simp only [hbe]
    cases hspw : env.spawn with
    | error e2 => simp [hspw]
    | ok c =>
      simp only [hspw]
      cases hup : env.updateStatus problem.id true with
      | error e2 => simp [hup]
      | ok u => simp [hup]

/-- Environment for the C8 witness: generation succeeds, then the editor
launch fails on a malformed environment entry. -/
def envC8 : Env := { envBase with conf := { confBase with editor_envs := some ["BAD"] } }

theorem c8_witness : (handler envC8).2.fs = (scaffoldPhase envC8).2.fs :=
  c8_no_rollback_on_launch_failure envC8 _ _ _ _ (.invalidEnvVar "BAD") rfl rfl
    (Or.inl ⟨"BAD", rfl⟩)

/-! Success inversion: what a successful scaffold phase returns. -/

theorem generateFiles_ok_inv (env : Env) (conf : CodeConf) (tf : Bool)
    (problem : Problem) (pdc path : String) (q : Question) (st : St)
    (c : CodeConf) (p : Problem) (pa : String) (st' : St)
    (h : generateFiles env conf tf problem pdc path q st = (.ok (c, p, pa), st')) :
    c = conf ∧ p = problem ∧ pa = path := by
  unfold generateFiles at h
  cases htp : env.testCasesPath problem with
  | error e => rw [htp] at h; simp at h
  | ok tp =>
    rw [htp] at h
    simp only [] at h
    generalize hw : writeDefs conf tf conf.lang path tp
      (env.qDescComment q conf ++ "\n") pdc q.all_cases q.defs
      (setFile st.fs path "") 0 false = w at h
    obtain ⟨fs2, tw, flag⟩ := w
    cases flag with
    | true =>
      simp at h
      exact ⟨h.1.1.symm, h.1.2.1.symm, h.1.2.2.symm⟩
    | false =>
      simp only [Bool.false_eq_true, if_false] at h
      cases hrm : removeFileE fs2 path with
      | error e => rw [hrm] at h; simp at h
      | ok fs3 =>
        rw [hrm] at h
        cases tf with
        | false => simp at h
        | true =>
          simp only [if_true] at h
          cases hrm2 : removeFileE fs3 tp with
          | error e => rw [hrm2] at h; simp at h
          | ok fs4 => rw [hrm2] at h; simp at h

theorem resolveAndGen_ok_inv (env : Env) (conf : CodeConf) (tf : Bool)
    (problem : Problem) (pdc : String) (id : Int) (st : St)
    (c : CodeConf) (p : Problem) (pa : String) (st' : St)
    (h : resolveAndGen env conf tf problem pdc id st = (.ok (c, p, pa), st')) :
    c = conf ∧ p = problem ∧ env.codePath problem conf.lang = .ok pa := by
  unfold resolveAndGen at h
  cases hcp : env.codePath problem conf.lang with
  | error e => rw [hcp] at h; simp at h
  | ok path =>
    rw [hcp] at h
    simp only [] at h
    by_cases hex : (lookupFile st.fs path).isSome = true
    · simp only [hex, if_true] at h
      simp at h
      exact ⟨h.1.1.symm, h.1.2.1.symm, by rw [h.1.2.2]⟩
    · simp only [hex, if_false] at h
      cases hpq : env.parseQuestion problem.desc with
      | some q =>
        rw [hpq] at h
        simp only [] at h
        obtain ⟨h1, h2, h3⟩ := generateFiles_ok_inv env conf tf problem pdc path q _ c p pa st' h
        exact ⟨h1, h2, by rw [h3]⟩
      | none =>
        rw [hpq] at h
        simp only [] at h
        cases hgq : env.getQuestion id with
        | error e => rw [hgq] at h; simp at h
        | ok q =>
          rw [hgq] at h
          simp only [] at h
          obtain ⟨h1, h2, h3⟩ := generateFiles_ok_inv env conf tf problem pdc path q _ c p pa st' h
          exact ⟨h1, h2, by rw [h3]⟩

theorem scaffoldPhase_ok_inv (env : Env) (c : CodeConf) (p : Problem) (pa : String)
    (st : St) (h : scaffoldPhase env = (.ok (c, p, pa), st)) :
    c = langOverride env ∧ env.codePath p c.lang = .ok pa := by
  unfold scaffoldPhase at h
  cases hcn : env.cacheNew with
  | error e => rw [hcn] at h; simp at h
  | ok u =>
    rw [hcn] at h
    simp only [] at h
    cases hdr : dailyRes env with
    | error e => rw [hdr] at h; simp at h
    | ok dOpt =>
      rw [hdr] at h
      simp only [] at h
      cases hor : env.argId.or dOpt with
      | none => rw [hor] at h; simp at h
      | some id =>
        rw [hor] at h
        simp only [] at h
        cases hgp : env.getProblem id with
        | error e => rw [hgp] at h; simp at h
        | ok problem =>
          rw [hgp] at h
          simp only [] at h
          cases hsy : syncStep env with
          | error e => rw [hsy] at h; simp at h
          | ok u2 =>
            rw [hsy] at h
            simp only [] at h
            obtain ⟨h1, h2, h3⟩ := resolveAndGen_ok_inv env (langOverride env)
              env.conf.test problem (env.pDescComment problem env.conf) id _ c p pa st h
            refine ⟨h1, ?_⟩
            rw [h2, h1]
            exact h3

/-! The editor environment validation. -/

theorem buildEnvs_first_bad :
    ∀ (es : List String) (bad : String),
      es.find? (fun x => !(decide ((splitEq x).length = 2))) = some bad →
      buildEnvs es = .error (.invalidEnvVar bad) := by
  intro es
  induction es with
  | nil => intro bad h; simp [List.find?] at h
  | cons e rest ih =>
    intro bad h
    by_cases h2 : (splitEq e).length = 2
    · have hf : rest.find? (fun x => !(decide ((splitEq x).length = 2))) = some bad := by
        simpa [List.find?, h2] using h
      rcases hsp : splitEq e with _ | ⟨k, _ | ⟨v, _ | ⟨w, tl⟩⟩⟩
      · rw [hsp] at h2; simp at h2
      · rw [hsp] at h2; simp at h2
      · simp [buildEnvs, hsp, ih bad hf]
      · rw [hsp] at h2; simp at h2
    · have hbe : bad = e := by
        have := h
        simp [List.find?, h2] at this
        exact this.symm
      subst hbe
      rcases hsp : splitEq bad with _ | ⟨k, _ | ⟨v, _ | ⟨w, tl⟩⟩⟩
      · simp [buildEnvs, hsp]
      · simp [buildEnvs, hsp]
      · rw [hsp] at h2; simp at h2
      · simp [buildEnvs, hsp]

/-- C4: a configured editor environment entry that does not split into
exactly two parts on the `=` delimiter prevents the editor spawn entirely,
and, whenever the scaffold phase itself succeeded, makes the invocation
fail with the invalid-entry error naming the first such entry. -/
theorem c4_malformed_env_gate (env : Env) (es : List String) (bad : String)
    (hes : (langOverride env).editor_envs = some es)
    (hbad : es.find? (fun x => !(decide ((splitEq x).length = 2))) = some bad) :
    ((handler env).2.spawnAttempted = false) ∧
    (∀ (v : CodeConf × Problem × String) (st1 : St),
      scaffoldPhase env = (Except.ok v, st1) →
      (handler env).1 = Except.error (Err.invalidEnvVar bad)) := by
  constructor
  · unfold handler
    cases hsp : scaffoldPhase env with
    | mk r st =>
      have h1 : st.spawnAttempted = false := by
        have h := (scaffold_editor_fields env).1
        rw [hsp] at h
        exact h
      cases r with
      | error e => simpa using h1
      | ok v =>
        obtain ⟨c, p, pa⟩ := v
        have hc : c = langOverride env := (scaffoldPhase_ok_inv env c p pa st hsp).1
        have hbe : buildEnvs (c.editor_envs.getD []) = .error (.invalidEnvVar bad) := by
          rw [hc, hes]
          exact buildEnvs_first_bad es bad hbad
        unfold editorPhase
        simp [hbe, h1]
  · intro v st1 hsp
    obtain ⟨c, p, pa⟩ := v
    have hc : c = langOverride env := (scaffoldPhase_ok_inv env c p pa st1 hsp).1
    have hbe : buildEnvs (c.editor_envs.getD []) = .error (.invalidEnvVar bad) := by
      rw [hc, hes]
      exact buildEnvs_first_bad es bad hbad
    unfold handler
    rw [hsp]
    unfold editorPhase
    simp [hbe]

/-- Environment for the C4 witness: three editor env entries, the second
lacking a delimiter. -/
def envC4 : Env :=
  { envBase with conf := { confBase with editor_envs := some ["A=1", "B", "C=2"] } }

theorem c4_witness :
    ((handler envC4).2.spawnAttempted = false) ∧
    ((handler envC4).1 = Except.error (Err.invalidEnvVar "B")) := by
  have h := c4_malformed_env_gate envC4 ["A=1", "B", "C=2"] "B" rfl rfl
  exact ⟨h.1, h.2 _ _ rfl⟩

/-! Frame lemmas: which trace fields each phase leaves untouched. -/

theorem editorPhase_frame (env : Env) (conf : CodeConf) (problem : Problem)
    (path : String) (st : St) :
    ((editorPhase env conf problem path st).2.fs = st.fs) ∧
    ((editorPhase env conf problem path st).2.dailyFetched = st.dailyFetched) ∧
    ((editorPhase env conf problem path st).2.getProblemArg = st.getProblemArg) ∧
    ((editorPhase env conf problem path st).2.descParsed = st.descParsed) ∧
    ((editorPhase env conf problem path st).2.remoteFetched = st.remoteFetched) ∧
    ((editorPhase env conf problem path st).2.getQuestionArg = st.getQuestionArg) ∧
    ((editorPhase env conf problem path st).2.questionUsed = st.questionUsed) ∧
    ((editorPhase env conf problem path st).2.syncedLang = st.syncedLang) ∧
    ((editorPhase env conf problem path st).2.pathProblemId = st.pathProblemId) ∧
    ((editorPhase env conf problem path st).2.pathLang = st.pathLang) ∧
    ((editorPhase env conf problem path st).2.testWrites = st.testWrites) := by
  unfold editorPhase
  cases hbe : buildEnvs (conf.editor_envs.getD []) with
  | error e => simp
  | ok m =>
    simp only []
    cases hspw : env.spawn with
    | error e => simp
    | ok c =>
      simp only []
      cases hup : env.updateStatus problem.id true with
      | error e => simp
      | ok u => simp

theorem editorPhase_callArg (env : Env) (conf : CodeConf) (problem : Problem)
    (path : String) (st : St) :
    (editorPhase env conf problem path st).2.statusCallArg = st.statusCallArg ∨
    (editorPhase env conf problem path st).2.statusCallArg
      = some (problem.id, true) := by
  unfold editorPhase
  cases hbe : buildEnvs (conf.editor_envs.getD []) with
  | error e => left; simp
  | ok m =>
    simp only []
    cases hspw : env.spawn with
    | error e => left; simp
    | ok c =>
      simp only []
      cases hup : env.updateStatus problem.id true with
      | error e => right; simp
      | ok u => right; simp

theorem generateFiles_frame (env : Env) (conf : CodeConf) (tf : Bool)
    (problem : Problem) (pdc path : String) (q : Question) (st : St) :
    ((generateFiles env conf tf problem pdc path q st).2.dailyFetched
        = st.dailyFetched) ∧
    ((generateFiles env conf tf problem pdc path q st).2.getProblemArg
        = st.getProblemArg) ∧
    ((generateFiles env conf tf problem pdc path q st).2.descParsed
        = st.descParsed) ∧
    ((generateFiles env conf tf problem pdc path q st).2.remoteFetched
        = st.remoteFetched) ∧
    ((generateFiles env conf tf problem pdc path q st).2.getQuestionArg
        = st.getQuestionArg) ∧
    ((generateFiles env conf tf problem pdc path q st).2.pathProblemId
        = st.pathProblemId) ∧
    ((generateFiles env conf tf problem pdc path q st).2.pathLang
        = st.pathLang) ∧
    ((generateFiles env conf tf problem pdc path q st).2.questionUsed
        = some q) := by
  unfold generateFiles
  cases htp : env.testCasesPath problem with
  | error e => simp
  | ok tp =>
    simp only []
    generalize writeDefs conf tf conf.lang path tp (env.qDescComment q conf ++ "\n") pdc
        q.all_cases q.defs (setFile st.fs path "") 0 false = w
    obtain ⟨fs2, tw, flag⟩ := w
    cases flag with
    | true => simp
    | false =>
      simp only [Bool.false_eq_true, if_false]
      cases removeFileE fs2 path with
      | error e => simp
      | ok fs3 =>
        cases tf with
        | false => simp
        | true =>
          simp only [if_true]
          cases removeFileE fs3 tp with
          | error e => simp
          | ok fs4 => simp

theorem resolveAndGen_trace (env : Env) (conf : CodeConf) (tf : Bool)
    (problem : Problem) (pdc : String) (id : Int) (st : St) :
    ((resolveAndGen env conf tf problem pdc id st).2.dailyFetched
        = st.dailyFetched) ∧
    ((resolveAndGen env conf tf problem pdc id st).2.getProblemArg
        = st.getProblemArg) ∧
    ((resolveAndGen env conf tf problem pdc id st).2.pathLang = st.pathLang ∨
     (resolveAndGen env conf tf problem pdc id st).2.pathLang = some conf.lang) ∧
    ((resolveAndGen env conf tf problem pdc id st).2.pathProblemId = st.pathProblemId ∨
     (resolveAndGen env conf tf problem pdc id st).2.pathProblemId
        = some problem.id) ∧
    ((resolveAndGen env conf tf problem pdc id st).2.getQuestionArg
        = st.getQuestionArg ∨
     (resolveAndGen env conf tf problem pdc id st).2.getQuestionArg = some id) := by
  unfold resolveAndGen
  cases hcp : env.codePath problem conf.lang with
  | error e => simp
  | ok path =>
    simp only []
    by_cases hex : (lookupFile st.fs path).isSome = true
    · simp [hex]
    · simp only [hex, if_false]
      cases hpq : env.parseQuestion problem.desc with
      | some q =>
        have h := generateFiles_frame env conf tf problem pdc path q { st with pathProblemId := some problem.id, pathLang := some conf.lang, descParsed := true }
        simp only [] at h ⊢
        refine ⟨h.1, h.2.1, Or.inr ?_, Or.inr ?_, Or.inl h.2.2.2.2.1⟩
        · exact h.2.2.2.2.2.2.1
        · exact h.2.2.2.2.2.1
      | none =>
        cases hgq : env.getQuestion id with
        | error e => simp
        | ok q =>
          have h := generateFiles_frame env conf tf problem pdc path q { st with pathProblemId := some problem.id, pathLang := some conf.lang, descParsed := true, remoteFetched := true, getQuestionArg := some id }
          simp only [] at h ⊢
          refine ⟨h.1, h.2.1, Or.inr ?_, Or.inr ?_, Or.inr h.2.2.2.2.1⟩
          · exact h.2.2.2.2.2.2.1
          · exact h.2.2.2.2.2.1

theorem handler_preserves (env : Env) :
    ((handler env).2.fs = (scaffoldPhase env).2.fs) ∧
    ((handler env).2.getProblemArg = (scaffoldPhase env).2.getProblemArg) ∧
    ((handler env).2.descParsed = (scaffoldPhase env).2.descParsed) ∧
    ((handler env).2.remoteFetched = (scaffoldPhase env).2.remoteFetched) ∧
    ((handler env).2.getQuestionArg = (scaffoldPhase env).2.getQuestionArg) ∧
    ((handler env).2.questionUsed = (scaffoldPhase env).2.questionUsed) ∧
    ((handler env).2.syncedLang = (scaffoldPhase env).2.syncedLang) ∧
    ((handler env).2.pathProblemId = (scaffoldPhase env).2.pathProblemId) ∧
    ((handler env).2.pathLang = (scaffoldPhase env).2.pathLang) ∧
    ((handler env).2.testWrites = (scaffoldPhase env).2.testWrites) := by
  unfold handler
  cases hsp : scaffoldPhase env with
  | mk r st =>
    simp only [hsp]
    cases r with
    | error e => simp
    | ok v =>
      obtain ⟨c, p, pa⟩ := v
      have h := editorPhase_frame env c p pa st
      simp only [] at h ⊢
      exact ⟨h.1, h.2.2.1, h.2.2.2.1, h.2.2.2.2.1, h.2.2.2.2.2.1, h.2.2.2.2.2.2.1,
        h.2.2.2.2.2.2.2.1, h.2.2.2.2.2.2.2.2.1, h.2.2.2.2.2.2.2.2.2.1,
        h.2.2.2.2.2.2.2.2.2.2⟩

/-- Trace state at the moment path resolution starts, when cache
construction, id resolution, problem lookup and the sync step have all
succeeded. -/
def stResolve (env : Env) (id : Int) : St :=
  let s := St.init env.fs
  { s with dailyFetched := env.daily,
           getProblemArg := some id,
           syncedLang := env.argLang }

theorem scaffoldPhase_eq (env : Env) (dOpt : Option Int) (id : Int) (p : Problem)
    (hc : env.cacheNew = .ok ()) (hdr : dailyRes env = .ok dOpt)
    (hor : env.argId.or dOpt = some id) (hgp : env.getProblem id = .ok p)
    (hsyn : syncStep env = .ok ()) :
    scaffoldPhase env = resolveAndGen env (langOverride env) env.conf.test p
      (env.pDescComment p env.conf) id (stResolve env id) := by
  unfold scaffoldPhase
  simp only [hc, hdr, hor, hgp, hsyn, stResolve, St.init]

/-- C10: with a lang override given, the overridden configuration is
persisted (sync succeeds with the new language recorded) and any path
resolution that happens afterwards uses the overridden language, whatever
the rest of the invocation does. -/
theorem c10_lang_override_persisted (env : Env) (dOpt : Option Int) (id : Int)
    (p : Problem) (l : String)
    (hc : env.cacheNew = .ok ()) (hdr : dailyRes env = .ok dOpt)
    (hor : env.argId.or dOpt = some id) (hgp : env.getProblem id = .ok p)
    (hl : env.argLang = some l) (hsy : env.syncOk = .ok ()) :
    ((handler env).2.syncedLang = some l) ∧
    ((handler env).2.pathLang = none ∨ (handler env).2.pathLang = some l) := by
  have hsyn : syncStep env = .ok () := by simp [syncStep, hl, hsy]
  have hsc := scaffoldPhase_eq env dOpt id p hc hdr hor hgp hsyn
  obtain ⟨hfs, hgpA, hdp, hrf, hgq, hqu, hsyL, hppid, hplL, htw⟩ := handler_preserves env
  constructor
  · rw [hsyL, hsc, resolveAndGen_synced]
    simp [stResolve, St.init, hl]
  · have h := (resolveAndGen_trace env (langOverride env) env.conf.test p
      (env.pDescComment p env.conf) id (stResolve env id)).2.2.1
    rw [← hsc] at h
    rcases h with h | h
    · left
      rw [hplL, h]
      simp [stResolve, St.init]
    · right
      rw [hplL, h]
      simp [langOverride, hl]

/-- Environment for the C10 witness: lang override to rust, which the
question does not support, so the invocation fails, yet the override was
synced and used for path resolution. -/
def envC10 : Env := { envBase with argLang := some "rust" }

theorem c10_witness :
    ((handler envC10).2.syncedLang = some "rust") ∧
    ((handler envC10).2.pathLang = none ∨ (handler envC10).2.pathLang = some "rust") :=
  c10_lang_override_persisted envC10 none 1 { id := 1, desc := "descr" } "rust"
    rfl rfl rfl rfl rfl rfl

/-- C7: with the daily flag set and no explicit id, the id the remote daily
lookup returns is the one used for the problem lookup, the path resolution,
the question fetch and the file status update. -/
theorem c7_daily_resolution (env : Env) (n : Int) (p : Problem)
    (hd : env.daily = true) (hi : env.argId = none)
    (hdi : env.dailyId = .ok n) (hc : env.cacheNew = .ok ())
    (hgp : env.getProblem n = .ok p) (hpid : p.id = n)
    (hsyn : syncStep env = .ok ()) :
    ((handler env).2.getProblemArg = some n) ∧
    ((handler env).2.pathProblemId = none ∨ (handler env).2.pathProblemId = some n) ∧
    ((handler env).2.getQuestionArg = none ∨ (handler env).2.getQuestionArg = some n) ∧
    ((handler env).2.statusCallArg = none ∨
     (handler env).2.statusCallArg = some (n, true)) := by
  have hdr : dailyRes env = .ok (some n) := by
    simp [dailyRes, hd, hdi, Except.map]
  have hor : env.argId.or (some n) = some n := by simp [hi]
  have hsc := scaffoldPhase_eq env (some n) n p hc hdr hor hgp hsyn
  obtain ⟨hfs, hgpA, hdp, hrf, hgq, hqu, hsyL, hppid, hplL, htw⟩ := handler_preserves env
  have htr := resolveAndGen_trace env (langOverride env) env.conf.test p
    (env.pDescComment p env.conf) n (stResolve env n)
  rw [← hsc] at htr
  refine ⟨?_, ?_, ?_, ?_⟩
  · rw [hgpA, htr.2.1]
    simp [stResolve, St.init]
  · rcases htr.2.2.2.1 with h | h
    · left
      rw [hppid, h]
      simp [stResolve, St.init]
    · right
      rw [hppid, h, hpid]
  · rcases htr.2.2.2.2 with h | h
    · left
      rw [hgq, h]
      simp [stResolve, St.init]
    · right
      rw [hgq, h]
  · unfold handler
    cases hsp : scaffoldPhase env with
    | mk r st =>
      have hnone : st.statusCallArg = none := by
        have h := (scaffold_editor_fields env).2.2
        rw [hsp] at h
        exact h
      cases r with
      | error e => left; simpa using hnone
      | ok v =>
        obtain ⟨c, p2, pa⟩ := v
        have hp2 : p2 = p := by
          rw [hsc] at hsp
          exact (resolveAndGen_ok_inv env (langOverride env) env.conf.test p
            (env.pDescComment p env.conf) n (stResolve env n) c p2 pa st hsp).2.1
        rcases editorPhase_callArg env c p2 pa st with h | h
        · left
          rw [h] at *
          simpa using hnone
        · right
          rw [h, hp2, hpid]

/-- Environment for the C7 witness: the daily lookup returns 42. -/
def envC7 : Env :=
  { envBase with daily := true,
                 argId := none,
                 dailyId := .ok 42,
                 getProblem := fun i =>
                   if i = 42 then .ok { id := 42, desc := "descr" }
                   else .error .problemNotFound }

theorem c7_witness :
    ((handler envC7).2.getProblemArg = some 42) ∧
    ((handler envC7).2.pathProblemId = none ∨
     (handler envC7).2.pathProblemId = some 42) ∧
    ((handler envC7).2.getQuestionArg = none ∨
     (handler envC7).2.getQuestionArg = some 42) ∧
    ((handler envC7).2.statusCallArg = none ∨
     (handler envC7).2.statusCallArg = some (42, true)) :=
  c7_daily_resolution envC7 42 { id := 42, desc := "descr" } rfl rfl rfl rfl rfl rfl rfl

/-- Question resolution inside generation: when the code path is new, the
remote fetch happens exactly on deserialization failure, and on success
the deserialized Question is the one used. -/
theorem resolveAndGen_remote (env : Env) (conf : CodeConf) (tf : Bool)
    (problem : Problem) (pdc : String) (id : Int) (st : St) (pa : String)
    (hcp : env.codePath problem conf.lang = .ok pa)
    (hex : lookupFile st.fs pa = none) :
    (∀ q, env.parseQuestion problem.desc = some q →
       ((resolveAndGen env conf tf problem pdc id st).2.remoteFetched
          = st.remoteFetched) ∧
       ((resolveAndGen env conf tf problem pdc id st).2.questionUsed = some q)) ∧
    (env.parseQuestion problem.desc = none →
       (resolveAndGen env conf tf problem pdc id st).2.remoteFetched = true) := by
  unfold resolveAndGen
  rw [hcp]
  have hex2 : (lookupFile st.fs pa).isSome = false := by rw [hex]; rfl
  constructor
  · intro q hq
    simp only [hex2, Bool.false_eq_true, if_false, hq]
    have h := generateFiles_frame env conf tf problem pdc pa q { st with pathProblemId := some problem.id, pathLang := some conf.lang, descParsed := true }
    exact ⟨by rw [h.2.2.2.1], h.2.2.2.2.2.2.2⟩
  · intro hq
    simp only [hex2, Bool.false_eq_true, if_false, hq]
    cases hgq : env.getQuestion id with
    | error e => simp
    | ok q =>
      have h := generateFiles_frame env conf tf problem pdc pa q { st with pathProblemId := some problem.id, pathLang := some conf.lang, descParsed := true, remoteFetched := true, getQuestionArg := some id }
      rw [h.2.2.2.1]

/-- C5: when the code file does not yet exist, question resolution prefers
the Question deserialized from the cached Problem desc field and performs
no remote fetch; the remote fetch happens exactly when deserialization
fails. -/
theorem c5_cache_first (env : Env) (dOpt : Option Int) (id : Int) (p : Problem)
    (pa : String)
    (hc : env.cacheNew = .ok ()) (hdr : dailyRes env = .ok dOpt)
    (hor : env.argId.or dOpt = some id) (hgp : env.getProblem id = .ok p)
    (hsyn : syncStep env = .ok ())
    (hcp : env.codePath p (langOverride env).lang = .ok pa)
    (hex : lookupFile env.fs pa = none) :
    (∀ q, env.parseQuestion p.desc = some q →
       ((handler env).2.remoteFetched = false) ∧
       ((handler env).2.questionUsed = some q)) ∧
    (env.parseQuestion p.desc = none → (handler env).2.remoteFetched = true) := by
  have hsc := scaffoldPhase_eq env dOpt id p hc hdr hor hgp hsyn
  have hex2 : lookupFile (stResolve env id).fs pa = none := by
    simpa [stResolve, St.init] using hex
  have hrm := resolveAndGen_remote env (langOverride env) env.conf.test p
    (env.pDescComment p env.conf) id (stResolve env id) pa hcp hex2
  rw [← hsc] at hrm
  obtain ⟨hfs, hgpA, hdp, hrf, hgq, hqu, hsyL, hppid, hplL, htw⟩ := handler_preserves env
  constructor
  · intro q hq
    obtain ⟨h1, h2⟩ := hrm.1 q hq
    refine ⟨?_, ?_⟩
    · rw [hrf, h1]
      simp [stResolve, St.init]
    · rw [hqu, h2]
  · intro hq
    rw [hrf, hrm.2 hq]

theorem c5_witness :
    ((handler envBase).2.remoteFetched = false) ∧
    ((handler envBase).2.questionUsed = some qPy) :=
  (c5_cache_first envBase none 1 { id := 1, desc := "descr" } "code.python3"
      rfl rfl rfl rfl rfl rfl rfl).1 qPy rfl

/-- Reduction of generation to `generateFiles` when the cached desc parses. -/
theorem resolveAndGen_gen_parse (env : Env) (conf : CodeConf) (tf : Bool)
    (problem : Problem) (pdc : String) (id : Int) (st : St) (pa : String)
    (q : Question)
    (hcp : env.codePath problem conf.lang = .ok pa)
    (hex : lookupFile st.fs pa = none)
    (hq : env.parseQuestion problem.desc = some q) :
    resolveAndGen env conf tf problem pdc id st
      = generateFiles env conf tf problem pdc pa q { st with pathProblemId := some problem.id, pathLang := some conf.lang, descParsed := true } := by
  unfold resolveAndGen
  rw [hcp]
  have hex2 : (lookupFile st.fs pa).isSome = false := by rw [hex]; rfl
  simp only [hex2, Bool.false_eq_true, if_false, hq]

/-- Reduction of generation to `generateFiles` when the cached desc does
not parse and the remote fetch succeeds. -/
theorem resolveAndGen_gen_fetch (env : Env) (conf : CodeConf) (tf : Bool)
    (problem : Problem) (pdc : String) (id : Int) (st : St) (pa : String)
    (q : Question)
    (hcp : env.codePath problem conf.lang = .ok pa)
    (hex : lookupFile st.fs pa = none)
    (hq : env.parseQuestion problem.desc = none)
    (hgq : env.getQuestion id = .ok q) :
    resolveAndGen env conf tf problem pdc id st
      = generateFiles env conf tf problem pdc pa q { st with pathProblemId := some problem.id, pathLang := some conf.lang, descParsed := true, remoteFetched := true, getQuestionArg := some id } := by
  unfold resolveAndGen
  rw [hcp]
  have hex2 : (lookupFile st.fs pa).isSome = false := by rw [hex]; rfl
  simp only [hex2, Bool.false_eq_true, if_false, hq, hgq]

/-- Content produced by a successful generation: one scaffold block per
matching definition, in list order; the test file holds the raw test cases
and is written once per match. -/
theorem generateFiles_content (env : Env) (conf : CodeConf) (tf : Bool)
    (problem : Problem) (pdc pa tp : String) (q : Question) (st : St)
    (htp : env.testCasesPath problem = .ok tp) (hne : ¬pa = tp)
    (hmatch : q.defs.any (fun x => decide (x.value = conf.lang)) = true) :
    ((generateFiles env conf tf problem pdc pa q st).1 = .ok (conf, problem, pa)) ∧
    (lookupFile (generateFiles env conf tf problem pdc pa q st).2.fs pa
       = some (concatAll ((q.defs.filter (fun x => decide (x.value = conf.lang))).map
           (fun x => scaffoldBlock conf pdc (env.qDescComment q conf ++ "\n") x.code)))) ∧
    ((generateFiles env conf tf problem pdc pa q st).2.testWrites
       = if tf then (q.defs.filter (fun x => decide (x.value = conf.lang))).length
         else 0) ∧
    (tf = true → lookupFile (generateFiles env conf tf problem pdc pa q st).2.fs tp
       = some q.all_cases) := by
  unfold generateFiles
  rw [htp]
  simp only []
  have hfl := writeDefs_flag conf tf conf.lang pa tp (env.qDescComment q conf ++ "\n") pdc
    q.all_cases q.defs (setFile st.fs pa "") 0 false
  have hcontent := writeDefs_code conf tf conf.lang pa tp (env.qDescComment q conf ++ "\n")
    pdc q.all_cases hne q.defs (setFile st.fs pa "") 0 false ""
    (lookupFile_setFile_same st.fs pa "")
  have htw2 := writeDefs_tw conf tf conf.lang pa tp (env.qDescComment q conf ++ "\n") pdc
    q.all_cases q.defs (setFile st.fs pa "") 0 false
  have htfile := writeDefs_testfile conf tf conf.lang pa tp (env.qDescComment q conf ++ "\n")
    pdc q.all_cases hne q.defs (setFile st.fs pa "") 0 false
  generalize hw : writeDefs conf tf conf.lang pa tp (env.qDescComment q conf ++ "\n") pdc
      q.all_cases q.defs (setFile st.fs pa "") 0 false = w at hfl hcontent htw2 htfile ⊢
  obtain ⟨fs2, tw, flag⟩ := w
  have hflag : flag = true := by simpa [hmatch] using hfl
  subst hflag
  simp only [if_true]
  refine ⟨trivial, ?_, ?_, ?_⟩
  · simpa [String.empty_append] using hcontent
  · simpa using htw2
  · intro htf1
    subst htf1
    simpa [hmatch] using htfile

/-- C3: for a generation with a single matching definition, the code file
is exactly: optional problem and question description comment blocks, the
injected-before lines, the optional start marker line, the template plus
newline, the optional end marker line, the injected-after lines. -/
theorem c3_layout (env : Env) (dOpt : Option Int) (id : Int) (p : Problem)
    (pa tp : String) (q : Question) (d : CodeDef)
    (hc : env.cacheNew = .ok ()) (hdr : dailyRes env = .ok dOpt)
    (hor : env.argId.or dOpt = some id) (hgp : env.getProblem id = .ok p)
    (hsyn : syncStep env = .ok ())
    (hcp : env.codePath p (langOverride env).lang = .ok pa)
    (hex : lookupFile env.fs pa = none)
    (hq : env.parseQuestion p.desc = some q ∨
          (env.parseQuestion p.desc = none ∧ env.getQuestion id = .ok q))
    (htp : env.testCasesPath p = .ok tp) (hne : ¬pa = tp)
    (hda : q.defs.filter (fun x => decide (x.value = (langOverride env).lang)) = [d]) :
    lookupFile (handler env).2.fs pa
      = some ((if (langOverride env).comment_problem_desc then
                 env.pDescComment p env.conf
                   ++ (env.qDescComment q (langOverride env) ++ "\n")
               else "")
          ++ concatAll (((langOverride env).inject_before.getD []).map
               (fun l => l ++ "\n"))
          ++ (if (langOverride env).edit_code_marker then
                (langOverride env).comment_leading ++ " "
                  ++ (langOverride env).start_marker ++ "\n"
              else "")
          ++ (d.code ++ "\n")
          ++ (if (langOverride env).edit_code_marker then
                (langOverride env).comment_leading ++ " "
                  ++ (langOverride env).end_marker ++ "\n"
              else "")
          ++ concatAll (((langOverride env).inject_after.getD []).map
               (fun l => l ++ "\n"))) := by
  have hsc := scaffoldPhase_eq env dOpt id p hc hdr hor hgp hsyn
  have hex2 : lookupFile (stResolve env id).fs pa = none := by
    simpa [stResolve, St.init] using hex
  have hmatch : q.defs.any (fun x => decide (x.value = (langOverride env).lang)) = true := by
    have hd : d ∈ q.defs.filter (fun x => decide (x.value = (langOverride env).lang)) := by
      rw [hda]
      exact List.mem_singleton.mpr rfl
    rw [List.mem_filter] at hd
    exact List.any_eq_true.mpr ⟨d, hd.1, hd.2⟩
  obtain ⟨hfs, hgpA, hdp, hrf, hgq2, hqu, hsyL, hppid, hplL, htw⟩ := handler_preserves env
  rw [hfs]
  rcases hq with hq | ⟨hq, hgq⟩
  · rw [hsc, resolveAndGen_gen_parse env (langOverride env) env.conf.test p
      (env.pDescComment p env.conf) id (stResolve env id) pa q hcp hex2 hq]
    rw [(generateFiles_content env (langOverride env) env.conf.test p
      (env.pDescComment p env.conf) pa tp q { stResolve env id with pathProblemId := some p.id, pathLang := some (langOverride env).lang, descParsed := true } htp hne hmatch).2.1, hda]
    simp [concatAll, scaffoldBlock, String.append_empty, String.append_assoc]
  · rw [hsc, resolveAndGen_gen_fetch env (langOverride env) env.conf.test p
      (env.pDescComment p env.conf) id (stResolve env id) pa q hcp hex2 hq hgq]
    rw [(generateFiles_content env (langOverride env) env.conf.test p
      (env.pDescComment p env.conf) pa tp q { stResolve env id with pathProblemId := some p.id, pathLang := some (langOverride env).lang, descParsed := true, remoteFetched := true, getQuestionArg := some id } htp hne hmatch).2.1, hda]
    simp [concatAll, scaffoldBlock, String.append_empty, String.append_assoc]

theorem c3_witness :
    lookupFile (handler envBase).2.fs "code.python3"
      = some "# problem\n# question\n# @lc code=start\ndef f(): pass\n# @lc code=end\n" := by
  have h := c3_layout envBase none 1 { id := 1, desc := "descr" } "code.python3"
    "tests.txt" qPy { value := "python3", code := "def f(): pass" }
    rfl rfl rfl rfl rfl rfl rfl (Or.inl rfl) rfl (by decide) (by decide)
  rw [h]
  decide

/-- C9: generation does not stop at the first matching definition: one
scaffold block is appended per matching definition, in list order, and with
the test flag set the test file is re-created once per match, ending with
the raw test cases. -/
theorem c9_duplicate_defs (env : Env) (dOpt : Option Int) (id : Int) (p : Problem)
    (pa tp : String) (q : Question)
    (hc : env.cacheNew = .ok ()) (hdr : dailyRes env = .ok dOpt)
    (hor : env.argId.or dOpt = some id) (hgp : env.getProblem id = .ok p)
    (hsyn : syncStep env = .ok ())
    (hcp : env.codePath p (langOverride env).lang = .ok pa)
    (hex : lookupFile env.fs pa = none)
    (hq : env.parseQuestion p.desc = some q ∨
          (env.parseQuestion p.desc = none ∧ env.getQuestion id = .ok q))
    (htp : env.testCasesPath p = .ok tp) (hne : ¬pa = tp)
    (hany : q.defs.any (fun x => decide (x.value = (langOverride env).lang)) = true) :
    (lookupFile (handler env).2.fs pa
       = some (concatAll ((q.defs.filter
             (fun x => decide (x.value = (langOverride env).lang))).map
           (fun x => scaffoldBlock (langOverride env) (env.pDescComment p env.conf)
              (env.qDescComment q (langOverride env) ++ "\n") x.code)))) ∧
    ((handler env).2.testWrites
       = if env.conf.test then
           (q.defs.filter (fun x => decide (x.value = (langOverride env).lang))).length
         else 0) ∧
    (env.conf.test = true →
       lookupFile (handler env).2.fs tp = some q.all_cases) := by
  have hsc := scaffoldPhase_eq env dOpt id p hc hdr hor hgp hsyn
  have hex2 : lookupFile (stResolve env id).fs pa = none := by
    simpa [stResolve, St.init] using hex
  obtain ⟨hfs, hgpA, hdp, hrf, hgq2, hqu, hsyL, hppid, hplL, htw⟩ := handler_preserves env
  rw [hfs, htw]
  rcases hq with hq | ⟨hq, hgq⟩
  · rw [hsc, resolveAndGen_gen_parse env (langOverride env) env.conf.test p
      (env.pDescComment p env.conf) id (stResolve env id) pa q hcp hex2 hq]
    have h := generateFiles_content env (langOverride env) env.conf.test p
      (env.pDescComment p env.conf) pa tp q { stResolve env id with pathProblemId := some p.id, pathLang := some (langOverride env).lang, descParsed := true } htp hne hany
    exact ⟨h.2.1, h.2.2.1, h.2.2.2⟩
  · rw [hsc, resolveAndGen_gen_fetch env (langOverride env) env.conf.test p
      (env.pDescComment p env.conf) id (stResolve env id) pa q hcp hex2 hq hgq]
    have h := generateFiles_content env (langOverride env) env.conf.test p
      (env.pDescComment p env.conf) pa tp q { stResolve env id with pathProblemId := some p.id, pathLang := some (langOverride env).lang, descParsed := true, remoteFetched := true, getQuestionArg := some id } htp hne hany
    exact ⟨h.2.1, h.2.2.1, h.2.2.2⟩

/-- Environment for the C9 witness: the python3 tag appears twice in the
definition list and the test flag is on. -/
def envC9 : Env :=
  { envBase with parseQuestion := fun _ => some qPyTwice,
                 conf := { confBase with test := true } }

theorem c9_witness :
    (lookupFile (handler envC9).2.fs "code.python3"
      = some ("# problem\n# question\n# @lc code=start\ndef f(): pass\n# @lc code=end\n"
          ++ "# problem\n# question\n# @lc code=start\ndef g(): pass\n# @lc code=end\n")) ∧
    ((handler envC9).2.testWrites = 2) ∧
    (lookupFile (handler envC9).2.fs "tests.txt" = some "cases") := by
  have h := c9_duplicate_defs envC9 none 1 { id := 1, desc := "descr" } "code.python3"
    "tests.txt" qPyTwice rfl rfl rfl rfl rfl rfl rfl (Or.inl rfl) rfl (by decide)
    (by decide)
  refine ⟨?_, ?_, ?_⟩
  · rw [h.1]
    decide
  · rw [h.2.1]
    decide
  · rw [h.2.2 rfl]
    decide

/-- Short circuit: when the resolved code path already exists, the scaffold
generator returns it unchanged, with no parse, no fetch, no write. -/
theorem resolveAndGen_existing (env : Env) (conf : CodeConf) (tf : Bool)
    (problem : Problem) (pdc : String) (id : Int) (st : St) (pa : String)
    (hcp : env.codePath problem conf.lang = .ok pa)
    (hex : (lookupFile st.fs pa).isSome = true) :
    resolveAndGen env conf tf problem pdc id st
      = (.ok (conf, problem, pa), { st with pathProblemId := some problem.id, pathLang := some conf.lang }) := by
  unfold resolveAndGen
  rw [hcp]
  simp only [hex, if_true]

/-- The definitions loop never removes a file. -/
theorem writeDefs_presence (conf : CodeConf) (tf : Bool)
    (lang path tp qdesc pdc ac : String) :
    ∀ (defs : List CodeDef) (fs : FS) (tw : Nat) (flag : Bool) (p2 : String),
      (lookupFile fs p2).isSome = true →
      (lookupFile (writeDefs conf tf lang path tp qdesc pdc ac defs fs tw flag).1
          p2).isSome = true := by
  intro defs
  induction defs with
  | nil => intro fs tw flag p2 h; simpa [writeDefs] using h
  | cons d rest ih =>
    intro fs tw flag p2 h
    by_cases hd : d.value = lang
    · simp only [writeDefs, hd, if_true, ite_true]
      apply ih
      by_cases htf : tf
      · simp only [htf, ite_true]
        by_cases hp : p2 = tp
        · subst hp
          simp [lookupFile_setFile_same]
        · rw [lookupFile_setFile_other _ _ hp]
          by_cases hpp : p2 = path
          · subst hpp
            simp [appendFile, lookupFile_setFile_same]
          · rw [lookupFile_appendFile_other _ _ hpp]
            exact h
      · have hred : (if tf then setFile (appendFile fs path (scaffoldBlock conf pdc qdesc d.code)) tp ac else appendFile fs path (scaffoldBlock conf pdc qdesc d.code)) = appendFile fs path (scaffoldBlock conf pdc qdesc d.code) := by
          simp [htf]
        rw [hred]
        by_cases hpp : p2 = path
        · subst hpp
          simp [appendFile, lookupFile_setFile_same]
        · rw [lookupFile_appendFile_other _ _ hpp]
          exact h
    · simp only [writeDefs, hd, if_false, ite_false]
      exact ih fs tw flag p2 h

/-- A successful generation leaves the code file present on disk. -/
theorem generateFiles_ok_present (env : Env) (conf : CodeConf) (tf : Bool)
    (problem : Problem) (pdc path : String) (q : Question) (st : St)
    (v : CodeConf × Problem × String) (st' : St)
    (h : generateFiles env conf tf problem pdc path q st = (.ok v, st')) :
    (lookupFile st'.fs path).isSome = true := by
  unfold generateFiles at h
  cases htp : env.testCasesPath problem with
  | error e => rw [htp] at h; simp at h
  | ok tp =>
    rw [htp] at h
    simp only [] at h
    generalize hw : writeDefs conf tf conf.lang path tp
      (env.qDescComment q conf ++ "\n") pdc q.all_cases q.defs
      (setFile st.fs path "") 0 false = w at h
    obtain ⟨fs2, tw, flag⟩ := w
    cases flag with
    | false =>
      simp only [Bool.false_eq_true, if_false] at h
      cases hrm : removeFileE fs2 path with
      | error e => rw [hrm] at h; simp at h
      | ok fs3 =>
        rw [hrm] at h
        cases tf with
        | false => simp at h
        | true =>
          simp only [if_true] at h
          cases hrm2 : removeFileE fs3 tp with
          | error e => rw [hrm2] at h; simp at h
          | ok fs4 => rw [hrm2] at h; simp at h
    | true =>
      simp only [if_true] at h
      have hpres := writeDefs_presence conf tf conf.lang path tp
        (env.qDescComment q conf ++ "\n") pdc q.all_cases q.defs
        (setFile st.fs path "") 0 false path
        (by simp [lookupFile_setFile_same])
      rw [hw] at hpres
      have hst : st'.fs = fs2 := by
        have := congrArg Prod.snd h
        simp only [] at this
        rw [← this]
      rw [hst]
      simpa using hpres

/-- A successful scaffold generation (either branch) leaves the returned
path present on disk. -/
theorem resolveAndGen_ok_present (env : Env) (conf : CodeConf) (tf : Bool)
    (problem : Problem) (pdc : String) (id : Int) (st : St)
    (c : CodeConf) (p2 : Problem) (pa2 : String) (st' : St)
    (h : resolveAndGen env conf tf problem pdc id st = (.ok (c, p2, pa2), st')) :
    (lookupFile st'.fs pa2).isSome = true := by
  unfold resolveAndGen at h
  cases hcp : env.codePath problem conf.lang with
  | error e => rw [hcp] at h; simp at h
  | ok path =>
    rw [hcp] at h
    simp only [] at h
    by_cases hex : (lookupFile st.fs path).isSome = true
    · simp only [hex, if_true] at h
      simp at h
      obtain ⟨⟨h1, h2, h3⟩, h4⟩ := h
      rw [← h4, ← h3]
      simpa using hex
    · simp only [hex, if_false] at h
      cases hpq : env.parseQuestion problem.desc with
      | some q =>
        rw [hpq] at h
        simp only [] at h
        have := generateFiles_ok_present env conf tf problem pdc path q _
          (c, p2, pa2) st' h
        have hpa : pa2 = path :=
          (generateFiles_ok_inv env conf tf problem pdc path q _ c p2 pa2 st' h).2.2
        rw [hpa]
        exact this
      | none =>
        rw [hpq] at h
        simp only [] at h
        cases hgq : env.getQuestion id with
        | error e => rw [hgq] at h; simp at h
        | ok q =>
          rw [hgq] at h
          simp only [] at h
          have := generateFiles_ok_present env conf tf problem pdc path q _
            (c, p2, pa2) st' h
          have hpa : pa2 = path :=
            (generateFiles_ok_inv env conf tf problem pdc path q _ c p2 pa2 st' h).2.2
          rw [hpa]
          exact this

/-- What a successful editor phase tells about its external calls. -/
theorem editorPhase_ok_inv (env : Env) (conf : CodeConf) (problem : Problem)
    (path : String) (st : St)
    (h : (editorPhase env conf problem path st).1 = .ok ()) :
    (∃ m, buildEnvs (conf.editor_envs.getD []) = .ok m) ∧
    (∃ c, env.spawn = .ok c) ∧
    (env.updateStatus problem.id true = .ok ()) := by
  unfold editorPhase at h
  cases hbe : buildEnvs (conf.editor_envs.getD []) with
  | error e => rw [hbe] at h; simp at h
  | ok m =>
    rw [hbe] at h
    simp only [] at h
    cases hspw : env.spawn with
    | error e => rw [hspw] at h; simp at h
    | ok c =>
      rw [hspw] at h
      simp only [] at h
      cases hup : env.updateStatus problem.id true with
      | error e => rw [hup] at h; simp at h
      | ok u => exact ⟨⟨m, rfl⟩, ⟨c, rfl⟩, by rfl⟩

/-- An editor phase whose three external calls succeed returns success. -/
theorem editorPhase_ok_run (env : Env) (conf : CodeConf) (problem : Problem)
    (path : String) (st : St) (m : List (String × String)) (c : Int)
    (hm : buildEnvs (conf.editor_envs.getD []) = .ok m)
    (hcex : env.spawn = .ok c)
    (hup : env.updateStatus problem.id true = .ok ()) :
    (editorPhase env conf problem path st).1 = .ok () := by
  unfold editorPhase
  simp only [hm, hcex, hup]

/-- Full run over an already-existing code file with a healthy editor
phase: success, untouched filesystem, no question resolution. -/
theorem handler_use_existing (env : Env) (dOpt : Option Int) (id : Int)
    (p : Problem) (pa : String) (m : List (String × String)) (cex : Int)
    (hc : env.cacheNew = .ok ()) (hdr : dailyRes env = .ok dOpt)
    (hor : env.argId.or dOpt = some id) (hgp : env.getProblem id = .ok p)
    (hsyn : syncStep env = .ok ())
    (hcp : env.codePath p (langOverride env).lang = .ok pa)
    (hex : (lookupFile env.fs pa).isSome = true)
    (hm : buildEnvs ((langOverride env).editor_envs.getD []) = .ok m)
    (hcex : env.spawn = .ok cex)
    (hup : env.updateStatus p.id true = .ok ()) :
    ((handler env).1 = .ok ()) ∧ ((handler env).2.fs = env.fs) ∧
    ((handler env).2.descParsed = false) ∧
    ((handler env).2.remoteFetched = false) := by
  have hsc := scaffoldPhase_eq env dOpt id p hc hdr hor hgp hsyn
  have hex2 : (lookupFile (stResolve env id).fs pa).isSome = true := by
    show (lookupFile env.fs pa).isSome = true
    exact hex
  have hsc2 : scaffoldPhase env = (.ok (langOverride env, p, pa), { stResolve env id with pathProblemId := some p.id, pathLang := some (langOverride env).lang }) :=
    hsc.trans (resolveAndGen_existing env (langOverride env) env.conf.test p
      (env.pDescComment p env.conf) id (stResolve env id) pa hcp hex2)
  have hhandler : handler env = editorPhase env (langOverride env) p pa { stResolve env id with pathProblemId := some p.id, pathLang := some (langOverride env).lang } := by
    unfold handler
    rw [hsc2]
  obtain ⟨hfs, hgpA, hdp, hrf, hgq, hqu, hsyL, hppid, hplL, htw⟩ := handler_preserves env
  refine ⟨?_, ?_, ?_, ?_⟩
  · rw [hhandler]
    exact editorPhase_ok_run env (langOverride env) p pa _ m cex hm hcex hup
  · rw [hfs, hsc2]
    simp [stResolve, St.init]
  · rw [hdp, hsc2]
    simp [stResolve, St.init]
  · rw [hrf, hsc2]
    simp [stResolve, St.init]

/-- C2: when the resolved code path already exists, the invocation neither
deserializes the cached desc nor fetches remotely and leaves the whole
filesystem byte-identical; and after any successful invocation the path
exists, so a second invocation over the resulting filesystem succeeds,
changes nothing, and performs no question resolution at all. -/
theorem c2_idempotent (env : Env) (dOpt : Option Int) (id : Int) (p : Problem)
    (pa : String)
    (hc : env.cacheNew = .ok ()) (hdr : dailyRes env = .ok dOpt)
    (hor : env.argId.or dOpt = some id) (hgp : env.getProblem id = .ok p)
    (hsyn : syncStep env = .ok ())
    (hcp : env.codePath p (langOverride env).lang = .ok pa) :
    ((lookupFile env.fs pa).isSome = true →
       ((handler env).2.descParsed = false) ∧
       ((handler env).2.remoteFetched = false) ∧
       ((handler env).2.fs = env.fs)) ∧
    ((handler env).1 = .ok () →
       ((lookupFile (handler env).2.fs pa).isSome = true) ∧
       ((handler { env with fs := (handler env).2.fs }).1 = .ok ()) ∧
       ((handler { env with fs := (handler env).2.fs }).2.fs = (handler env).2.fs) ∧
       ((handler { env with fs := (handler env).2.fs }).2.descParsed = false) ∧
       ((handler { env with fs := (handler env).2.fs }).2.remoteFetched = false)) := by
  have hsc := scaffoldPhase_eq env dOpt id p hc hdr hor hgp hsyn
  constructor
  · intro hex
    have hex2 : (lookupFile (stResolve env id).fs pa).isSome = true := by
      simpa [stResolve, St.init] using hex
    have hsc2 : scaffoldPhase env = (.ok (langOverride env, p, pa), { stResolve env id with pathProblemId := some p.id, pathLang := some (langOverride env).lang }) := by
      rw [hsc]
      exact resolveAndGen_existing env (langOverride env) env.conf.test p
        (env.pDescComment p env.conf) id (stResolve env id) pa hcp hex2
    obtain ⟨hfs, hgpA, hdp, hrf, hgq, hqu, hsyL, hppid, hplL, htw⟩ := handler_preserves env
    refine ⟨?_, ?_, ?_⟩
    · rw [hdp, hsc2]
      simp [stResolve, St.init]
    · rw [hrf, hsc2]
      simp [stResolve, St.init]
    · rw [hfs, hsc2]
      simp [stResolve, St.init]
  · intro hok
    cases hsp : scaffoldPhase env with
    | mk r st =>
      have hhandler : handler env = (match (r, st) with
        | (.error e, st2) => ((.error e : Except Err Unit), st2)
        | (.ok (c, p2, pa2), st2) => editorPhase env c p2 pa2 st2) := by
        unfold handler
        rw [hsp]
      cases r with
      | error e =>
        rw [hhandler] at hok
        simp at hok
      | ok v =>
        obtain ⟨c, p2, pa2⟩ := v
        simp only [] at hhandler
        have hra : resolveAndGen env (langOverride env) env.conf.test p
            (env.pDescComment p env.conf) id (stResolve env id)
            = (.ok (c, p2, pa2), st) := by
          rw [← hsc]
          exact hsp
        obtain ⟨hc1, hp1, hcp1⟩ := resolveAndGen_ok_inv env (langOverride env)
          env.conf.test p (env.pDescComment p env.conf) id (stResolve env id)
          c p2 pa2 st hra
        subst hc1
        have hpa : pa2 = pa := by
          rw [hcp] at hcp1
          exact ((Except.ok.injEq _ _).mp hcp1).symm
        rw [hp1, hpa] at hhandler hra
        have hpres : (lookupFile st.fs pa).isSome = true :=
          resolveAndGen_ok_present env (langOverride env) env.conf.test p
            (env.pDescComment p env.conf) id (stResolve env id)
            (langOverride env) p pa st hra
        have hfs1 : (handler env).2.fs = st.fs := by
          rw [hhandler]
          exact (editorPhase_frame env (langOverride env) p pa st).1
        rw [hhandler] at hok
        obtain ⟨⟨m, hm⟩, ⟨cex, hcex⟩, hup⟩ :=
          editorPhase_ok_inv env (langOverride env) p pa st hok
        -- the second invocation
        have hrun2 := handler_use_existing { env with fs := (handler env).2.fs }
          dOpt id p pa m cex hc hdr hor hgp hsyn hcp
          (by show (lookupFile (handler env).2.fs pa).isSome = true
              rw [hfs1]
              exact hpres)
          hm hcex hup
        exact ⟨by rw [hfs1]; exact hpres, hrun2.1, hrun2.2.1, hrun2.2.2.1,
          hrun2.2.2.2⟩

/-- Environment for the C2 witness: the code file already exists with
content X. -/
def envC2 : Env := { envBase with fs := [("code.python3", "X")] }

theorem c2_witness :
    (((handler envC2).2.descParsed = false) ∧
     ((handler envC2).2.remoteFetched = false) ∧
     ((handler envC2).2.fs = envC2.fs)) ∧
    (((lookupFile (handler envC2).2.fs "code.python3").isSome = true) ∧
     ((handler { envC2 with fs := (handler envC2).2.fs }).1 = .ok ()) ∧
     ((handler { envC2 with fs := (handler envC2).2.fs }).2.fs
        = (handler envC2).2.fs) ∧
     ((handler { envC2 with fs := (handler envC2).2.fs }).2.descParsed = false) ∧
     ((handler { envC2 with fs := (handler envC2).2.fs }).2.remoteFetched = false)) := by
  have h := c2_idempotent envC2 none 1 { id := 1, desc := "descr" } "code.python3"
    rfl rfl rfl rfl rfl rfl
  exact ⟨h.1 rfl, h.2 rfl⟩

/-- Environment exhibiting the no-match cleanup defect: test flag on, the
requested language rust has no definition, no test file pre-exists. -/
def envC1 : Env :=
  { envBase with conf := { confBase with test := true, lang := "rust" } }

/-- C1: at a no-match invocation with the test flag enabled and no
pre-existing test file, the unconditional removal of the test file fails,
so the call returns the filesystem error from that removal instead of the
unsupported-language error; both files are nevertheless absent afterwards. -/
theorem c1_code_bug :
    (lookupFile envC1.fs "code.rust" = none) ∧
    (qPy.defs.any (fun d => decide (d.value = "rust")) = false) ∧
    ((handler envC1).1 = .error (.removeErr "tests.txt")) ∧
    (¬((handler envC1).1 = .error (.unsupportedLanguage "rust"))) ∧
    (lookupFile (handler envC1).2.fs "code.rust" = none) ∧
    (lookupFile (handler envC1).2.fs "tests.txt" = none) := by
  refine ⟨rfl, rfl, rfl, ?_, rfl, rfl⟩
  intro h
  rw [show (handler envC1).1 = Except.error (Err.removeErr "tests.txt") from rfl] at h
  simp at h

/-- The same no-match invocation with the test flag disabled follows the
specified behaviour: cleanup plus the unsupported-language error. -/
theorem nomatch_cleanup_when_test_off :
    ((handler { envBase with conf := { confBase with lang := "rust" } }).1
       = .error (.unsupportedLanguage "rust")) ∧
    (lookupFile (handler { envBase with conf := { confBase with lang := "rust" } }).2.fs
       "code.rust" = none) := ⟨rfl, rfl⟩

end LeetcodeEdit
